import Mathlib

/-!
Shallow embedding of the LatticeGreenFunction repository
(src/calc_LGF.py and src/relaxation_wlammps.py) together with proofs
about the embedded program.

Vectors are modelled as `List ℝ` and matrices as lists of rows
(`List (List ℝ)`), matching the numpy arrays of the source.  External
collaborators (the elasticity routines, the sparse conjugate-gradient
solver, the LAMMPS engine) are modelled as function parameters; all other
computations are translated directly from the Python source.
-/

open scoped Classical

noncomputable section

/-- numpy dot product of two 1-d arrays: elementwise product, then sum. -/
def dotL (r v : List ℝ) : ℝ := (List.zipWith (fun a b => a * b) r v).sum

/-- Matrix-vector product `M.dot(v)` with the matrix stored as a list of rows. -/
def matVec (M : List (List ℝ)) (v : List ℝ) : List ℝ := M.map (fun r => dotL r v)

/-- Split a flat vector into consecutive rows of 3, as `np.reshape(v, (n, 3))`
does on data of the right length (the length check itself is `reshapeRows`). -/
def chunk3 : List ℝ → List (List ℝ)
  | a :: b :: c :: t => [a, b, c] :: chunk3 t
  | _ => []

/-- `np.reshape(v, (rows, 3))`: raises (here: `none`) unless the length matches. -/
def reshapeRows (v : List ℝ) (rows : ℕ) : Option (List (List ℝ)) :=
  if v.length = 3 * rows then some (chunk3 v) else none

/-- `sum(u**2)` for one row of a displacement field. -/
def sumSq (l : List ℝ) : ℝ := (l.map (fun x => x ^ 2)).sum

/-- Python `max` over a list of reals, with 0 as the value on the empty
list.  The source applies `max` only to nonempty lists of squared norms
(which are nonnegative), where this agrees with Python `max`. -/
def listMax0 (l : List ℝ) : ℝ := l.foldr max 0

/-!  ### Relaxation coupling engine (src/relaxation_wlammps.py)  -/

/-- The local variable `disp` of `relaxation_cycle` on the full-update branch:
`np.reshape(np.dot(G, forces_2), (size_123, 3))` seen as a list of rows. -/
def dispOf (G : List (List ℝ)) (forces_2 : List ℝ) : List (List ℝ) :=
  chunk3 (matVec G forces_2)

/-- The local variable `dispmax` of `relaxation_cycle`:
`np.sqrt(max(sum(u**2) for u in disp))`. -/
def dispmaxOf (G : List (List ℝ)) (forces_2 : List ℝ) : ℝ :=
  Real.sqrt (listMax0 ((dispOf G forces_2).map sumSq))

/-- The local variable `scale` of `relaxation_cycle`: 1 if `dispmax < maxdisp`,
else `maxdisp / dispmax`. -/
def scaleOf (G : List (List ℝ)) (forces_2 : List ℝ) (maxdisp : ℝ) : ℝ :=
  if dispmaxOf G forces_2 < maxdisp then 1 else maxdisp / dispmaxOf G forces_2

/-- The LGF-update step of `relaxation_cycle` (src/relaxation_wlammps.py,
lines 179-199).  The current grid and the region-2 forces are the values
returned by the external LAMMPS collaborator, so they enter as parameters.
Returns `none` where the Python raises (invalid method, reshape mismatch). -/
def relaxation_cycle_update (method : String) (grid : List (List ℝ))
    (forces_2 : List ℝ) (G : List (List ℝ)) (size_1 size_123 : ℕ)
    (maxdisp : ℝ) : Option (List (List ℝ)) :=
  if method = "dislLGF123" ∨ method = "perfbulkLGF123" then
    (reshapeRows (matVec G forces_2) size_123).map (fun disp =>
      List.zipWith (fun g u =>
        List.zipWith (fun a b => a + scaleOf G forces_2 maxdisp * b) g u) grid disp)
  else if method = "dislLGF23" ∨ method = "perfbulkLGF23" then
    (reshapeRows ((matVec (G.drop (3 * size_1)) forces_2).map (fun x => -x))
        (size_123 - size_1)).map (fun rows =>
      grid.take size_1 ++
        List.zipWith (fun g u =>
          List.zipWith (fun a b => a - b) g u) (grid.drop size_1) rows)
  else none

/-- Terminal condition of the outer relaxation loop
(src/relaxation_wlammps.py, lines 339-368): which of the three exits
ended the loop. -/
inductive Outcome where
  | converged
  | diverged
  | maxIter
deriving DecidableEq

/-- Observable events of the outer relaxation loop: one `iter` per
executed iteration (the `force_evolution.append`), and one `save` per
execution of `np.save` with the list that is written to disk. -/
inductive RelaxEvent where
  | iter : ℝ → RelaxEvent
  | save : List ℝ → RelaxEvent

/-- Whether an event is a disk write of the force-evolution log. -/
def RelaxEvent.isSave : RelaxEvent → Bool
  | RelaxEvent.save _ => true
  | _ => false

/-- Whether an event is the completion of one outer iteration. -/
def RelaxEvent.isIter : RelaxEvent → Bool
  | RelaxEvent.iter _ => true
  | _ => false

/-- Result of the outer relaxation loop: the exit taken, the in-memory
`force_evolution` list, the number of coupling cycles performed, and the
trace of observable events. -/
structure RelaxResult where
  outcome : Outcome
  log : List ℝ
  cycles : ℕ
  trace : List RelaxEvent

/-- `force_max = abs(forces_12.flat[abs(forces_12).argmax()])`: the largest
absolute force component.  Python `argmax` raises on an empty array; the
source only applies it to the nonempty region-1+2 force array, where this
fold agrees with it. -/
def forceMax (forces : List ℝ) : ℝ := (forces.map (fun x => |x|)).foldr max 0

/-- `force_2norm = np.linalg.norm(forces_12)`: the Euclidean norm. -/
def forceNorm (forces : List ℝ) : ℝ := Real.sqrt (sumSq forces)

/-- The body of `for i in range(args.maxouteriter)` in
src/relaxation_wlammps.py (lines 340-366).  The external LAMMPS engine and
the coupling cycle are abstracted into `engine`: `engine c` is the
region-1+2 force array available at the top of the iteration after `c`
coupling cycles (`engine 0` is the initial `lammps_getforces` output).
The first argument is the remaining fuel of the `range`, then the cycle
count, the `force_evolution` accumulator and the event trace. -/
def relaxLoopAux (engine : ℕ → List ℝ) (ftol : ℝ) :
    ℕ → ℕ → List ℝ → List RelaxEvent → RelaxResult
  | 0, cyc, log, tr => ⟨Outcome.maxIter, log, cyc, tr⟩
  | fuel + 1, cyc, log, tr =>
    let fmax := forceMax (engine cyc)
    let log2 := log ++ [fmax]
    let tr2 := tr ++ [RelaxEvent.iter fmax]
    if fmax < ftol then ⟨Outcome.converged, log2, cyc, tr2⟩
    else if forceNorm (engine cyc) > 100 then ⟨Outcome.diverged, log2, cyc, tr2⟩
    else relaxLoopAux engine ftol fuel (cyc + 1) log2 tr2

/-- The outer relaxation loop followed by the single
`np.save('forces.npy', force_evolution)` that the source performs after
the loop ends (src/relaxation_wlammps.py, line 368). -/
def relaxMain (engine : ℕ → List ℝ) (ftol : ℝ) (maxouteriter : ℕ) : RelaxResult :=
  let r := relaxLoopAux engine ftol maxouteriter 0 [] []
  ⟨r.outcome, r.log, r.cycles, r.trace ++ [RelaxEvent.save r.log]⟩

/-- The relaxation-engine stub of the convergence scenario: successive
max-force readings 10, 1, 0.01, each as a one-component force array. -/
def engineStub : ℕ → List ℝ :=
  fun c => if c = 0 then [10] else if c = 1 then [1] else [1 / 100]

lemma relaxLoopAux_conv (engine : ℕ → List ℝ) (ftol : ℝ) (fuel cyc : ℕ)
    (log : List ℝ) (tr : List RelaxEvent)
    (h : forceMax (engine cyc) < ftol) :
    relaxLoopAux engine ftol (fuel + 1) cyc log tr =
      ⟨Outcome.converged, log ++ [forceMax (engine cyc)], cyc,
        tr ++ [RelaxEvent.iter (forceMax (engine cyc))]⟩ := by
  simp [relaxLoopAux, h]

lemma relaxLoopAux_div (engine : ℕ → List ℝ) (ftol : ℝ) (fuel cyc : ℕ)
    (log : List ℝ) (tr : List RelaxEvent)
    (h1 : ¬ forceMax (engine cyc) < ftol) (h2 : forceNorm (engine cyc) > 100) :
    relaxLoopAux engine ftol (fuel + 1) cyc log tr =
      ⟨Outcome.diverged, log ++ [forceMax (engine cyc)], cyc,
        tr ++ [RelaxEvent.iter (forceMax (engine cyc))]⟩ := by
  simp [relaxLoopAux, h1, h2]

lemma relaxLoopAux_step (engine : ℕ → List ℝ) (ftol : ℝ) (fuel cyc : ℕ)
    (log : List ℝ) (tr : List RelaxEvent)
    (h1 : ¬ forceMax (engine cyc) < ftol) (h2 : ¬ forceNorm (engine cyc) > 100) :
    relaxLoopAux engine ftol (fuel + 1) cyc log tr =
      relaxLoopAux engine ftol fuel (cyc + 1) (log ++ [forceMax (engine cyc)])
        (tr ++ [RelaxEvent.iter (forceMax (engine cyc))]) := by
  simp [relaxLoopAux, h1, h2]

lemma cons_map_range_succ {α : Type} (g : ℕ → α) (c i : ℕ) :
    g c :: (List.range i).map (fun j => g (c + 1 + j)) =
      (List.range (i + 1)).map (fun j => g (c + j)) := by
  rw [List.range_succ_eq_map, List.map_cons, List.map_map]
  congr 1
  apply List.map_congr_left
  intro a _
  show g (c + 1 + a) = g (c + Nat.succ a)
  congr 1
  omega

lemma relaxLoopAux_advance (engine : ℕ → List ℝ) (ftol : ℝ) :
    ∀ (i fuel cyc : ℕ) (log : List ℝ) (tr : List RelaxEvent),
      (∀ j, j < i → ¬ forceMax (engine (cyc + j)) < ftol ∧
        ¬ forceNorm (engine (cyc + j)) > 100) →
      i ≤ fuel →
      relaxLoopAux engine ftol fuel cyc log tr =
        relaxLoopAux engine ftol (fuel - i) (cyc + i)
          (log ++ (List.range i).map (fun j => forceMax (engine (cyc + j))))
          (tr ++ (List.range i).map
            (fun j => RelaxEvent.iter (forceMax (engine (cyc + j))))) := by
  intro i
  induction i with
  | zero => intro fuel cyc log tr _ _; simp
  | succ i ih =>
    intro fuel cyc log tr h hle
    obtain ⟨fuel', rfl⟩ : ∃ f, fuel = f + 1 := ⟨fuel - 1, by omega⟩
    have h0 := h 0 (Nat.succ_pos i)
    rw [relaxLoopAux_step engine ftol fuel' cyc log tr
      (by simpa using h0.1) (by simpa using h0.2)]
    rw [ih fuel' (cyc + 1) (log ++ [forceMax (engine cyc)])
      (tr ++ [RelaxEvent.iter (forceMax (engine cyc))])
      (fun j hj => by
        have := h (j + 1) (by omega)
        constructor
        · have hr : cyc + 1 + j = cyc + (j + 1) := by omega
          rw [hr]; exact this.1
        · have hr : cyc + 1 + j = cyc + (j + 1) := by omega
          rw [hr]; exact this.2)
      (by omega)]
    have hfuel : fuel' - i = fuel' + 1 - (i + 1) := by omega
    have hcyc : cyc + 1 + i = cyc + (i + 1) := by omega
    rw [List.append_assoc log, List.append_assoc tr, List.singleton_append,
      List.singleton_append,
      cons_map_range_succ (fun n => forceMax (engine n)) cyc i,
      cons_map_range_succ (fun n => RelaxEvent.iter (forceMax (engine n))) cyc i,
      hfuel, hcyc]

/-- C3: each outer relaxation iteration appends exactly one max-force
value to the force-evolution log; the loop exits CONVERGED as soon as the
max force drops below the tolerance (checked before divergence), exits
DIVERGED when the force 2-norm exceeds 100 (with no further coupling
cycles), otherwise performs one coupling cycle per iteration up to the
configured maximum number of outer iterations. -/
theorem relaxation_loop_spec (engine : ℕ → List ℝ) (ftol : ℝ)
    (maxouteriter i : ℕ)
    (hprev : ∀ j, j < i → ¬ forceMax (engine j) < ftol ∧
      ¬ forceNorm (engine j) > 100) :
    (i < maxouteriter → forceMax (engine i) < ftol →
      (relaxMain engine ftol maxouteriter).outcome = Outcome.converged ∧
      (relaxMain engine ftol maxouteriter).log =
        (List.range (i + 1)).map (fun j => forceMax (engine j)) ∧
      (relaxMain engine ftol maxouteriter).cycles = i) ∧
    (i < maxouteriter → ¬ forceMax (engine i) < ftol →
        forceNorm (engine i) > 100 →
      (relaxMain engine ftol maxouteriter).outcome = Outcome.diverged ∧
      (relaxMain engine ftol maxouteriter).log =
        (List.range (i + 1)).map (fun j => forceMax (engine j)) ∧
      (relaxMain engine ftol maxouteriter).cycles = i) ∧
    (i = maxouteriter →
      (relaxMain engine ftol maxouteriter).outcome = Outcome.maxIter ∧
      (relaxMain engine ftol maxouteriter).log =
        (List.range i).map (fun j => forceMax (engine j)) ∧
      (relaxMain engine ftol maxouteriter).cycles = i) := by
  refine ⟨?_, ?_, ?_⟩
  · intro hlt hconv
    have hadv := relaxLoopAux_advance engine ftol i maxouteriter 0 [] []
      (by simpa using hprev) (le_of_lt hlt)
    obtain ⟨f', hf'⟩ : ∃ f', maxouteriter - i = f' + 1 := ⟨maxouteriter - i - 1, by omega⟩
    rw [hf'] at hadv
    rw [relaxLoopAux_conv engine ftol f' (0 + i) _ _ (by simpa using hconv)] at hadv
    simp only [Nat.zero_add] at hadv
    simp [relaxMain, hadv, List.range_succ]
  · intro hlt hnc hdiv
    have hadv := relaxLoopAux_advance engine ftol i maxouteriter 0 [] []
      (by simpa using hprev) (le_of_lt hlt)
    obtain ⟨f', hf'⟩ : ∃ f', maxouteriter - i = f' + 1 := ⟨maxouteriter - i - 1, by omega⟩
    rw [hf'] at hadv
    rw [relaxLoopAux_div engine ftol f' (0 + i) _ _ (by simpa using hnc)
      (by simpa using hdiv)] at hadv
    simp only [Nat.zero_add] at hadv
    simp [relaxMain, hadv, List.range_succ]
  · intro heq
    subst heq
    have hadv := relaxLoopAux_advance engine ftol i i 0 [] []
      (by simpa using hprev) le_rfl
    simp only [Nat.sub_self, Nat.zero_add] at hadv
    simp only [relaxLoopAux] at hadv
    simp [relaxMain, hadv]

lemma forceMax_ten : forceMax [(10 : ℝ)] = 10 := by
  norm_num [forceMax]

lemma forceMax_one : forceMax [(1 : ℝ)] = 1 := by
  norm_num [forceMax]

lemma forceMax_centi : forceMax [(1 / 100 : ℝ)] = 1 / 100 := by
  norm_num [forceMax]

lemma forceNorm_ten : forceNorm [(10 : ℝ)] = 10 := by
  have : sumSq [(10 : ℝ)] = 10 ^ 2 := by norm_num [sumSq]
  rw [forceNorm, this, Real.sqrt_sq (by norm_num : (0 : ℝ) ≤ 10)]

lemma forceNorm_one : forceNorm [(1 : ℝ)] = 1 := by
  have : sumSq [(1 : ℝ)] = 1 := by norm_num [sumSq]
  rw [forceNorm, this, Real.sqrt_one]

/-- Witness for C3: the convergence scenario with stub readings
10, 1, 0.01 against tolerance 0.1 stops at the third iteration in the
converged state with a force-evolution log of length 3 and exactly two
coupling cycles performed. -/
theorem relaxation_loop_spec_witness :
    (relaxMain engineStub (1 / 10) 51).outcome = Outcome.converged ∧
    (relaxMain engineStub (1 / 10) 51).log = [10, 1, 1 / 100] ∧
    (relaxMain engineStub (1 / 10) 51).cycles = 2 := by
  have hprev : ∀ j, j < 2 → ¬ forceMax (engineStub j) < (1 / 10 : ℝ) ∧
      ¬ forceNorm (engineStub j) > 100 := by
    intro j hj
    interval_cases j
    · refine ⟨?_, ?_⟩
      · rw [show engineStub 0 = [(10 : ℝ)] from rfl, forceMax_ten]; norm_num
      · rw [show engineStub 0 = [(10 : ℝ)] from rfl, forceNorm_ten]; norm_num
    · refine ⟨?_, ?_⟩
      · rw [show engineStub 1 = [(1 : ℝ)] from rfl, forceMax_one]; norm_num
      · rw [show engineStub 1 = [(1 : ℝ)] from rfl, forceNorm_one]; norm_num
  have hconv : forceMax (engineStub 2) < (1 / 10 : ℝ) := by
    rw [show engineStub 2 = [(1 / 100 : ℝ)] from rfl, forceMax_centi]; norm_num
  have h := (relaxation_loop_spec engineStub (1 / 10) 51 2 hprev).1
    (by norm_num) hconv
  refine ⟨h.1, ?_, h.2.2⟩
  rw [h.2.1]
  rw [show (2 + 1 : ℕ) = 3 from rfl]
  rw [show List.range 3 = [0, 1, 2] from rfl]
  simp only [List.map_cons, List.map_nil]
  rw [show engineStub 0 = [(10 : ℝ)] from rfl,
    show engineStub 1 = [(1 : ℝ)] from rfl,
    show engineStub 2 = [(1 / 100 : ℝ)] from rfl,
    forceMax_ten, forceMax_one, forceMax_centi]

lemma relaxLoopAux_log_trace (engine : ℕ → List ℝ) (ftol : ℝ) :
    ∀ (fuel cyc : ℕ) (log : List ℝ) (tr : List RelaxEvent),
      ∃ d : List ℝ,
        (relaxLoopAux engine ftol fuel cyc log tr).log = log ++ d ∧
        (relaxLoopAux engine ftol fuel cyc log tr).trace =
          tr ++ d.map RelaxEvent.iter := by
  intro fuel
  induction fuel with
  | zero => intro cyc log tr; exact ⟨[], by simp [relaxLoopAux]⟩
  | succ fuel ih =>
    intro cyc log tr
    by_cases h1 : forceMax (engine cyc) < ftol
    · refine ⟨[forceMax (engine cyc)], ?_⟩
      rw [relaxLoopAux_conv engine ftol fuel cyc log tr h1]
      simp
    · by_cases h2 : forceNorm (engine cyc) > 100
      · refine ⟨[forceMax (engine cyc)], ?_⟩
        rw [relaxLoopAux_div engine ftol fuel cyc log tr h1 h2]
        simp
      · obtain ⟨d, hd1, hd2⟩ := ih (cyc + 1) (log ++ [forceMax (engine cyc)])
          (tr ++ [RelaxEvent.iter (forceMax (engine cyc))])
        refine ⟨forceMax (engine cyc) :: d, ?_, ?_⟩
        · rw [relaxLoopAux_step engine ftol fuel cyc log tr h1 h2, hd1]
          simp
        · rw [relaxLoopAux_step engine ftol fuel cyc log tr h1 h2, hd2]
          simp

/-- C9 (amended): the force-evolution log is written to disk exactly once,
by the single save that follows the end of the outer loop; the saved list
holds one max-force value per completed iteration, but no write happens
between iterations. -/
theorem force_log_saved_once_at_end (engine : ℕ → List ℝ) (ftol : ℝ)
    (maxouteriter : ℕ) :
    (relaxMain engine ftol maxouteriter).trace =
      ((relaxMain engine ftol maxouteriter).log.map RelaxEvent.iter) ++
        [RelaxEvent.save (relaxMain engine ftol maxouteriter).log] := by
  obtain ⟨d, hd1, hd2⟩ :=
    relaxLoopAux_log_trace engine ftol maxouteriter 0 [] []
  simp only [List.nil_append] at hd1 hd2
  simp [relaxMain, hd1, hd2]

lemma stubRun_eq : relaxMain engineStub (1 / 10) 51 =
    ⟨Outcome.converged, [10, 1, 1 / 100], 2,
      [RelaxEvent.iter 10, RelaxEvent.iter 1, RelaxEvent.iter (1 / 100),
        RelaxEvent.save [10, 1, 1 / 100]]⟩ := by
  have h1 : relaxLoopAux engineStub (1 / 10) 51 0 [] [] =
      relaxLoopAux engineStub (1 / 10) 50 1 [10] [RelaxEvent.iter 10] := by
    have := relaxLoopAux_step engineStub (1 / 10) 50 0 [] []
      (by rw [show engineStub 0 = [(10 : ℝ)] from rfl, forceMax_ten]; norm_num)
      (by rw [show engineStub 0 = [(10 : ℝ)] from rfl, forceNorm_ten]; norm_num)
    rw [show (51 : ℕ) = 50 + 1 from rfl, this,
      show engineStub 0 = [(10 : ℝ)] from rfl, forceMax_ten]
    simp
  have h2 : relaxLoopAux engineStub (1 / 10) 50 1 [10] [RelaxEvent.iter 10] =
      relaxLoopAux engineStub (1 / 10) 49 2 [10, 1]
        [RelaxEvent.iter 10, RelaxEvent.iter 1] := by
    have := relaxLoopAux_step engineStub (1 / 10) 49 1 [10] [RelaxEvent.iter 10]
      (by rw [show engineStub 1 = [(1 : ℝ)] from rfl, forceMax_one]; norm_num)
      (by rw [show engineStub 1 = [(1 : ℝ)] from rfl, forceNorm_one]; norm_num)
    rw [show (50 : ℕ) = 49 + 1 from rfl, this,
      show engineStub 1 = [(1 : ℝ)] from rfl, forceMax_one]
    simp
  have h3 : relaxLoopAux engineStub (1 / 10) 49 2 [10, 1]
      [RelaxEvent.iter 10, RelaxEvent.iter 1] =
      ⟨Outcome.converged, [10, 1, 1 / 100], 2,
        [RelaxEvent.iter 10, RelaxEvent.iter 1, RelaxEvent.iter (1 / 100)]⟩ := by
    have := relaxLoopAux_conv engineStub (1 / 10) 48 2 [10, 1]
      [RelaxEvent.iter 10, RelaxEvent.iter 1]
      (by rw [show engineStub 2 = [(1 / 100 : ℝ)] from rfl, forceMax_centi]; norm_num)
    rw [show (49 : ℕ) = 48 + 1 from rfl, this,
      show engineStub 2 = [(1 / 100 : ℝ)] from rfl, forceMax_centi]
    simp
  rw [relaxMain, h1, h2, h3]
  simp

/-- C9 counterexample: in the convergence scenario three outer iterations
complete, yet the whole run performs exactly one disk write of the
force-evolution log, after the loop has ended; in particular no write
separates the first iteration from the second, so the claim that the log
on disk is updated after every outer iteration fails on this input. -/
theorem force_log_not_incremental_counterexample :
    (relaxMain engineStub (1 / 10) 51).trace =
      [RelaxEvent.iter 10, RelaxEvent.iter 1, RelaxEvent.iter (1 / 100),
        RelaxEvent.save [10, 1, 1 / 100]] ∧
    ((relaxMain engineStub (1 / 10) 51).trace.filter RelaxEvent.isSave).length
      = 1 ∧
    ((relaxMain engineStub (1 / 10) 51).trace.filter RelaxEvent.isIter).length
      = 3 := by
  rw [stubRun_eq]
  refine ⟨rfl, ?_, ?_⟩ <;>
    simp [List.filter, RelaxEvent.isSave, RelaxEvent.isIter]

/-- The consistency check performed when the persisted LGF matrix is loaded
(src/relaxation_wlammps.py, lines 295-301): the three stored region-size
attributes are compared with the current grid partition and any mismatch
raises a ValueError. -/
def gLoadCheck (attr_1 attr_12 attr_123 size_1 size_12 size_123 : ℕ) :
    Except String Unit :=
  if attr_1 ≠ size_1 then
    Except.error "LGF not consistent with setup? size_1 mismatch"
  else if attr_12 ≠ size_12 then
    Except.error "LGF not consistent with setup? size_12 mismatch"
  else if attr_123 ≠ size_123 then
    Except.error "LGF not consistent with setup? size_123 mismatch"
  else Except.ok ()

lemma sqrt_eval {a b : ℝ} (hb : 0 ≤ b) (h : b ^ 2 = a) : Real.sqrt a = b := by
  rw [← h, Real.sqrt_sq hb]

lemma sumSq_nonneg (l : List ℝ) : 0 ≤ sumSq l := by
  apply List.sum_nonneg
  intro x hx
  obtain ⟨y, _, rfl⟩ := List.mem_map.mp hx
  exact sq_nonneg y

lemma le_listMax0_of_mem {a : ℝ} {l : List ℝ} (h : a ∈ l) : a ≤ listMax0 l := by
  induction l with
  | nil => cases h
  | cons x t ih =>
    rcases List.mem_cons.mp h with rfl | h2
    · exact le_max_left _ _
    · exact le_trans (ih h2) (le_max_right _ _)

lemma sumSq_map_mul (c : ℝ) (l : List ℝ) :
    sumSq (l.map (fun x => c * x)) = c ^ 2 * sumSq l := by
  induction l with
  | nil => simp [sumSq]
  | cons x t ih =>
    simp only [sumSq, List.map_cons, List.sum_cons] at ih ⊢
    rw [ih]
    ring

/-- C1 (amended): under the full-update method the capped quantity is the
maximum per-atom displacement magnitude (not the root-mean-square): the
applied displacement is the LGF displacement scaled by 1 when that maximum
is below maxdisp and by maxdisp divided by that maximum otherwise, and the
per-atom magnitude of the applied displacement never exceeds maxdisp. -/
theorem full_update_caps_max_norm (grid G : List (List ℝ)) (forces_2 : List ℝ)
    (size_1 size_123 : ℕ) (maxdisp : ℝ) (k : ℕ) (hmd : 0 < maxdisp) :
    relaxation_cycle_update "dislLGF123" grid forces_2 G size_1 size_123 maxdisp
      = (reshapeRows (matVec G forces_2) size_123).map (fun disp =>
          List.zipWith (fun g u =>
            List.zipWith (fun a b => a + scaleOf G forces_2 maxdisp * b) g u)
            grid disp) ∧
    Real.sqrt (sumSq (((dispOf G forces_2).getD k []).map
        (fun b => scaleOf G forces_2 maxdisp * b))) ≤ maxdisp := by
  constructor
  · rw [relaxation_cycle_update, if_pos (Or.inl rfl)]
  · set row := (dispOf G forces_2).getD k [] with hrow
    have hS : 0 ≤ sumSq row := sumSq_nonneg row
    have hSM : sumSq row ≤ listMax0 ((dispOf G forces_2).map sumSq) := by
      by_cases hk : k < (dispOf G forces_2).length
      · have hmem : row ∈ dispOf G forces_2 := by
          rw [hrow, List.getD_eq_getElem _ _ hk]
          exact List.getElem_mem hk
        exact le_listMax0_of_mem (List.mem_map.mpr ⟨row, hmem, rfl⟩)
      · have : row = [] := by
          rw [hrow, List.getD_eq_default]
          omega
        rw [this]
        have : sumSq [] = 0 := by simp [sumSq]
        rw [this]
        induction (dispOf G forces_2).map sumSq with
        | nil => exact le_refl 0
        | cons x t ih => exact le_trans ih (le_max_right _ _)
    have hsq : Real.sqrt (sumSq row) ≤ dispmaxOf G forces_2 := by
      rw [dispmaxOf]
      exact Real.sqrt_le_sqrt hSM
    rw [sumSq_map_mul, Real.sqrt_mul (sq_nonneg _), Real.sqrt_sq_eq_abs]
    by_cases hcase : dispmaxOf G forces_2 < maxdisp
    · rw [scaleOf, if_pos hcase]
      simpa using le_of_lt (lt_of_le_of_lt hsq hcase)
    · rw [scaleOf, if_neg hcase]
      have hdm : maxdisp ≤ dispmaxOf G forces_2 := not_lt.mp hcase
      have hdm0 : 0 < dispmaxOf G forces_2 := lt_of_lt_of_le hmd hdm
      have habs : |maxdisp / dispmaxOf G forces_2| =
          maxdisp / dispmaxOf G forces_2 :=
        abs_of_nonneg (div_nonneg (le_of_lt hmd) (le_of_lt hdm0))
      rw [habs]
      calc maxdisp / dispmaxOf G forces_2 * Real.sqrt (sumSq row)
          ≤ maxdisp / dispmaxOf G forces_2 * dispmaxOf G forces_2 := by
            apply mul_le_mul_of_nonneg_left hsq
            exact div_nonneg (le_of_lt hmd) (le_of_lt hdm0)
        _ = maxdisp := div_mul_cancel₀ maxdisp (ne_of_gt hdm0)

/-- Witness for C1: a concrete full update with displacement rows of
magnitudes 7 and 1 against cap 2 is scaled by 2/7 (cap over the maximum
magnitude) and the applied per-atom magnitude stays at or below 2. -/
theorem full_update_caps_max_norm_witness :
    (relaxation_cycle_update "dislLGF123" [[0, 0, 0], [0, 0, 0]] [1]
        [[7], [0], [0], [1], [0], [0]] 0 2 2
      = (reshapeRows (matVec [[7], [0], [0], [1], [0], [0]] [1]) 2).map
          (fun disp => List.zipWith (fun g u =>
            List.zipWith (fun a b =>
              a + scaleOf [[7], [0], [0], [1], [0], [0]] [1] 2 * b) g u)
            [[0, 0, 0], [0, 0, 0]] disp)) ∧
    Real.sqrt (sumSq (((dispOf [[7], [0], [0], [1], [0], [0]] [1]).getD 0 []).map
        (fun b => scaleOf [[7], [0], [0], [1], [0], [0]] [1] 2 * b))) ≤ 2 :=
  full_update_caps_max_norm [[0, 0, 0], [0, 0, 0]] [[7], [0], [0], [1], [0], [0]]
    [1] 0 2 2 0 (by norm_num)

lemma dispOf_example : dispOf [[7], [0], [0], [1], [0], [0]] [(1 : ℝ)]
    = [[7, 0, 0], [1, 0, 0]] := by
  norm_num [dispOf, matVec, dotL, chunk3]

lemma dispmaxOf_example : dispmaxOf [[7], [0], [0], [1], [0], [0]] [(1 : ℝ)] = 7 := by
  rw [dispmaxOf, dispOf_example]
  have h1 : listMax0 ([[(7 : ℝ), 0, 0], [1, 0, 0]].map sumSq) = 49 := by
    simp only [List.map_cons, List.map_nil, listMax0, List.foldr_cons,
      List.foldr_nil]
    have hs1 : sumSq [(7 : ℝ), 0, 0] = 49 := by norm_num [sumSq]
    have hs2 : sumSq [(1 : ℝ), 0, 0] = 1 := by norm_num [sumSq]
    rw [hs1, hs2, max_eq_left (by norm_num : (0 : ℝ) ≤ 1),
      max_eq_left (by norm_num : (1 : ℝ) ≤ 49)]
  rw [h1]
  exact sqrt_eval (by norm_num) (by norm_num)

lemma scaleOf_example : scaleOf [[7], [0], [0], [1], [0], [0]] [(1 : ℝ)] 2 = 2 / 7 := by
  rw [scaleOf, dispmaxOf_example, if_neg (by norm_num)]

lemma full_update_example :
    relaxation_cycle_update "dislLGF123" [[0, 0, 0], [0, 0, 0]] [1]
        [[7], [0], [0], [1], [0], [0]] 0 2 2
      = some [[2, 0, 0], [2 / 7, 0, 0]] := by
  rw [relaxation_cycle_update, if_pos (Or.inl rfl)]
  have hmv : matVec [[7], [0], [0], [1], [0], [0]] [(1 : ℝ)] = [7, 0, 0, 1, 0, 0] := by
    norm_num [matVec, dotL]
  rw [hmv]
  rw [show reshapeRows [(7 : ℝ), 0, 0, 1, 0, 0] 2 = some [[7, 0, 0], [1, 0, 0]] by
    rw [reshapeRows, if_pos (by norm_num)]
    norm_num [chunk3]]
  rw [Option.map_some']
  simp only [List.zipWith_cons_cons, List.zipWith_nil_right, Option.some.injEq]
  rw [scaleOf_example]
  norm_num

/-- C1 counterexample: for the concrete LGF column [7,0,0,1,0,0] and unit
force, the displacement field has root-mean-square magnitude 5, exceeding
the cap 2, yet the applied update is not the field scaled by 2/5: the code
scales by cap over the maximum per-atom magnitude (2/7), so the claim that
the cap acts on the root-mean-square displacement fails on this input. -/
theorem full_update_rms_counterexample :
    Real.sqrt (((dispOf [[7], [0], [0], [1], [0], [0]] [1]).map sumSq).sum /
        ((dispOf [[7], [0], [0], [1], [0], [0]] [1]).length : ℝ)) = 5 ∧
    (2 : ℝ) < 5 ∧
    relaxation_cycle_update "dislLGF123" [[0, 0, 0], [0, 0, 0]] [1]
        [[7], [0], [0], [1], [0], [0]] 0 2 2 ≠
      some [[0 + 2 / 5 * 7, 0 + 2 / 5 * 0, 0 + 2 / 5 * 0],
        [0 + 2 / 5 * 1, 0 + 2 / 5 * 0, 0 + 2 / 5 * 0]] := by
  refine ⟨?_, by norm_num, ?_⟩
  · rw [dispOf_example]
    have hs1 : sumSq [(7 : ℝ), 0, 0] = 49 := by norm_num [sumSq]
    have hs2 : sumSq [(1 : ℝ), 0, 0] = 1 := by norm_num [sumSq]
    simp only [List.map_cons, List.map_nil, List.sum_cons, List.sum_nil,
      List.length_cons, List.length_nil]
    rw [hs1, hs2]
    norm_num
    exact sqrt_eval (by norm_num) (by norm_num)
  · rw [full_update_example]
    intro hcontra
    simp only [Option.some.injEq, List.cons.injEq, and_true] at hcontra
    norm_num at hcontra

lemma core_take {γ : Type} (n : ℕ) (grid b : List γ)
    (hb : b.length ≤ grid.length - n) :
    (grid.take n ++ b).take n = grid.take n := by
  rw [List.take_append_eq_append_take, List.take_take, min_self]
  by_cases h : n ≤ grid.length
  · rw [List.length_take, min_eq_left h, Nat.sub_self, List.take_zero,
      List.append_nil]
  · have hb0 : b = [] := by
      rw [← List.length_eq_zero]
      omega
    rw [hb0]
    simp

/-- C8: under the partial-update method the LGF update never moves the core
region: every output grid agrees with the input grid on all rows with
index below size_1. -/
theorem partial_update_preserves_core (method : String)
    (grid : List (List ℝ)) (forces_2 : List ℝ) (G : List (List ℝ))
    (size_1 size_123 : ℕ) (maxdisp : ℝ)
    (hm : method = "dislLGF23" ∨ method = "perfbulkLGF23") :
    ∀ out, relaxation_cycle_update method grid forces_2 G size_1 size_123 maxdisp
        = some out →
      out.take size_1 = grid.take size_1 := by
  intro out h
  have hne1 : ¬ (method = "dislLGF123" ∨ method = "perfbulkLGF123") := by
    rcases hm with rfl | rfl <;> decide
  rw [relaxation_cycle_update, if_neg hne1, if_pos hm] at h
  cases hrr : reshapeRows ((matVec (G.drop (3 * size_1)) forces_2).map
      (fun x => -x)) (size_123 - size_1) with
  | none => rw [hrr] at h; cases h
  | some rows =>
    rw [hrr, Option.map_some', Option.some.injEq] at h
    rw [← h]
    apply core_take
    calc (List.zipWith (fun g u => List.zipWith (fun a b => a - b) g u)
          (grid.drop size_1) rows).length
        ≤ (grid.drop size_1).length := by
          rw [List.length_zipWith]
          exact min_le_left _ _
      _ = grid.length - size_1 := List.length_drop size_1 grid

lemma partial_update_example :
    relaxation_cycle_update "dislLGF23" [[1, 2, 3], [4, 5, 6]] [1]
        [[0], [0], [0], [9], [0], [0]] 1 2 100
      = some [[1, 2, 3], [4 - -9, 5 - -0, 6 - -0]] := by
  rw [relaxation_cycle_update, if_neg (by decide), if_pos (Or.inl rfl)]
  have hmv : matVec ([[(0 : ℝ)], [0], [0], [9], [0], [0]].drop 3) [1] = [9, 0, 0] := by
    norm_num [matVec, dotL]
  rw [show (3 * 1 : ℕ) = 3 from rfl, hmv]
  rw [show ([(9 : ℝ), 0, 0].map (fun x => -x)) = [-9, -0, -0] by norm_num]
  rw [show reshapeRows [(-9 : ℝ), -0, -0] (2 - 1) = some [[-9, -0, -0]] by
    rw [reshapeRows, if_pos (by norm_num)]
    norm_num [chunk3]]
  rw [Option.map_some']
  simp

/-- Witness for C8: a concrete partial update displaces the region-2 row
while the single core row is returned unchanged. -/
theorem partial_update_preserves_core_witness :
    List.take 1 [[(1 : ℝ), 2, 3], [4 - -9, 5 - -0, 6 - -0]]
      = List.take 1 [[(1 : ℝ), 2, 3], [4, 5, 6]] :=
  partial_update_preserves_core "dislLGF23" [[1, 2, 3], [4, 5, 6]] [1]
    [[0], [0], [0], [9], [0], [0]] 1 2 100 (Or.inl rfl)
    [[1, 2, 3], [4 - -9, 5 - -0, 6 - -0]] partial_update_example

lemma chunk3_map (f : ℝ → ℝ) : ∀ l : List ℝ,
    chunk3 (l.map f) = (chunk3 l).map (fun r => r.map f)
  | [] => by simp [chunk3]
  | [a] => by simp [chunk3]
  | [a, b] => by simp [chunk3]
  | a :: b :: c :: t => by
    simp only [List.map_cons, chunk3]
    rw [chunk3_map f t]
    simp

/-- C10: under the partial-update method the displacement applied to the
coupling+buffer rows is exactly the LGF sub-block (rows from 3·size_1 on)
times the coupling-region forces, with no magnitude cap: the result does
not depend on maxdisp at all, and each updated row is the old row plus the
corresponding uncapped LGF displacement row. -/
theorem partial_update_uncapped (method : String) (grid : List (List ℝ))
    (forces_2 : List ℝ) (G : List (List ℝ)) (size_1 size_123 : ℕ)
    (maxdisp maxdisp' : ℝ)
    (hm : method = "dislLGF23" ∨ method = "perfbulkLGF23") :
    relaxation_cycle_update method grid forces_2 G size_1 size_123 maxdisp =
      relaxation_cycle_update method grid forces_2 G size_1 size_123 maxdisp' ∧
    ∀ out, relaxation_cycle_update method grid forces_2 G size_1 size_123 maxdisp
        = some out →
      out = grid.take size_1 ++
        List.zipWith (fun g u => List.zipWith (fun a b => a + b) g u)
          (grid.drop size_1) (chunk3 (matVec (G.drop (3 * size_1)) forces_2)) := by
  have hne1 : ¬ (method = "dislLGF123" ∨ method = "perfbulkLGF123") := by
    rcases hm with rfl | rfl <;> decide
  constructor
  · rw [relaxation_cycle_update, relaxation_cycle_update, if_neg hne1,
      if_neg hne1]
  · intro out h
    rw [relaxation_cycle_update, if_neg hne1, if_pos hm] at h
    set v := matVec (G.drop (3 * size_1)) forces_2 with hv
    cases hrr : reshapeRows (v.map (fun x => -x)) (size_123 - size_1) with
    | none => rw [hrr] at h; cases h
    | some rows =>
      rw [hrr, Option.map_some', Option.some.injEq] at h
      have hrows : rows = (chunk3 v).map (fun r => r.map (fun x => -x)) := by
        rw [reshapeRows] at hrr
        by_cases hlen : (v.map (fun x => -x)).length = 3 * (size_123 - size_1)
        · rw [if_pos hlen, Option.some.injEq] at hrr
          rw [← hrr, chunk3_map]
        · rw [if_neg hlen] at hrr
          cases hrr
      rw [← h, hrows, List.zipWith_map_right]
      have hfun2 : (fun (a b : List ℝ) =>
          List.zipWith (fun a b => a - b) a (b.map (fun x => -x))) =
          fun (g u : List ℝ) => List.zipWith (fun a b => a + b) g u := by
        funext g u
        rw [List.zipWith_map_right]
        have hfun : (fun (a b : ℝ) => a - -b) = fun a b => a + b := by
          funext a b
          ring
        rw [hfun]
      rw [hfun2]

lemma partial_update_uncapped_example :
    relaxation_cycle_update "dislLGF23" [[0, 0, 0]] [1] [[7], [0], [0]] 0 1 2
      = some [[0 - -7, 0 - -0, 0 - -0]] := by
  rw [relaxation_cycle_update, if_neg (by decide), if_pos (Or.inl rfl)]
  have hmv : matVec ([[(7 : ℝ)], [0], [0]].drop 0) [1] = [7, 0, 0] := by
    norm_num [matVec, dotL]
  rw [show (3 * 0 : ℕ) = 0 from rfl, hmv]
  rw [show ([(7 : ℝ), 0, 0].map (fun x => -x)) = [-7, -0, -0] by norm_num]
  rw [show reshapeRows [(-7 : ℝ), -0, -0] (1 - 0) = some [[-7, -0, -0]] by
    rw [reshapeRows, if_pos (by norm_num)]
    norm_num [chunk3]]
  rw [Option.map_some']
  simp

/-- Witness for C10: a concrete partial update is independent of the cap
(2 versus 1000) and adds the uncapped LGF row [7,0,0], whose magnitude 7
exceeds the configured cap 2. -/
theorem partial_update_uncapped_witness :
    (relaxation_cycle_update "dislLGF23" [[0, 0, 0]] [1] [[7], [0], [0]] 0 1 2 =
      relaxation_cycle_update "dislLGF23" [[0, 0, 0]] [1] [[7], [0], [0]] 0 1 1000) ∧
    [[(0 : ℝ) - -7, 0 - -0, 0 - -0]] = [[(0 : ℝ), 0, 0]].take 0 ++
      List.zipWith (fun g u => List.zipWith (fun a b => a + b) g u)
        ([[(0 : ℝ), 0, 0]].drop 0) (chunk3 (matVec ([[(7 : ℝ)], [0], [0]].drop (3 * 0)) [1])) ∧
    2 < Real.sqrt (sumSq [(0 : ℝ) - -7, 0 - -0, 0 - -0]) := by
  have h := partial_update_uncapped "dislLGF23" [[0, 0, 0]] [1] [[7], [0], [0]]
    0 1 2 1000 (Or.inl rfl)
  refine ⟨h.1, h.2 [[0 - -7, 0 - -0, 0 - -0]] partial_update_uncapped_example, ?_⟩
  have hs : sumSq [(0 : ℝ) - -7, 0 - -0, 0 - -0] = 49 := by norm_num [sumSq]
  rw [hs, sqrt_eval (b := 7) (by norm_num) (by norm_num)]
  norm_num

/-!  ### LGF assembly engine (src/calc_LGF.py)  -/

/-- Atom record of the grid.  The source records index, region, m, n, t
and basis; the far-field formulas of `setBC` read only the m and n
coordinates (the t component of the separation vector is computed but
never used), so the remaining fields are omitted here. -/
structure Atom where
  m : ℝ
  n : ℝ
  t : ℝ

/-- numpy `arctan2(y, x)`: the argument of the complex number x + i·y,
valued in the interval (-pi, pi]. -/
def arctan2 (y x : ℝ) : ℝ := Complex.arg ⟨x, y⟩

/-- Python float modulo: `x % y = x - y*floor(x/y)`. -/
def pymod (x y : ℝ) : ℝ := x - y * ⌊x / y⌋

/-- Angle normalization of `setBC`: an angle of absolute value above 1e-8
is reduced modulo 2·pi, every other angle is snapped to exactly 0. -/
def phiNorm (p : ℝ) : ℝ := if |p| > 1e-8 then pymod p (2 * Real.pi) else 0

/-- The local variable `R` of `setBC`: lattice constant times the in-plane
(m, n) distance between the source atom and the far-field atom. -/
def Rsep (a0 : ℝ) (src aff : Atom) : ℝ :=
  a0 * Real.sqrt ((src.m - aff.m) ^ 2 + (src.n - aff.n) ^ 2)

/-- The local variable `phi` of `setBC` after normalization. -/
def phiSep (src aff : Atom) : ℝ :=
  phiNorm (arctan2 (src.n - aff.n) (src.m - aff.m))

/-- One summand of the `setBC` row update:
`np.dot(elastic.G_largeR(GEn, phi_R_grid, R, phi, N, a0, V, t_mag), f[i])`.
The elasticity collaborator is the parameter `Glr`, standing for
`elastic.G_largeR` with the Fourier and angular tables and the constants
N, V, t_mag already fixed. -/
def bcDisp (Glr : ℝ → ℝ → List (List ℝ)) (a0 : ℝ) (src aff : Atom)
    (fi : List ℝ) : List ℝ :=
  matVec (Glr (Rsep a0 src aff) (phiSep src aff)) fi

/-- The `zip(grid[size_in:], u[size_in:])` loop of `setBC`: rows of u
paired with a far-field atom are updated in place; rows beyond the shorter
of the two lists stay untouched. -/
def setBCloop (upd : Atom → List ℝ → List ℝ) :
    List Atom → List (List ℝ) → List (List ℝ)
  | [], us => us
  | _ :: _, [] => []
  | a :: as, u :: us => upd a u :: setBCloop upd as us

/-- `setBC` (src/calc_LGF.py, lines 9-56): starting from a zero
(size_all, 3) array, each row zipped against a far-field atom
(index at least size_in) receives `u_ff -= G(R, phi) · f[i]`. -/
def setBC (i : ℕ) (grid : List Atom) (size_in size_all : ℕ)
    (Glr : ℝ → ℝ → List (List ℝ)) (a0 : ℝ) (f : List (List ℝ)) :
    List (List ℝ) :=
  let u := List.replicate size_all [(0 : ℝ), 0, 0]
  u.take size_in ++
    setBCloop (fun aff urow => List.zipWith (fun a b => a - b) urow
        (bcDisp Glr a0 (grid.getD i ⟨0, 0, 0⟩) aff (f.getD i [0, 0, 0])))
      (grid.drop size_in) (u.drop size_in)

lemma setBCloop_length (upd : Atom → List ℝ → List ℝ) :
    ∀ (as : List Atom) (us : List (List ℝ)),
      (setBCloop upd as us).length = us.length
  | [], us => rfl
  | _ :: _, [] => rfl
  | a :: as, u :: us => by
    simp only [setBCloop, List.length_cons]
    rw [setBCloop_length upd as us]

lemma setBCloop_getD (upd : Atom → List ℝ → List ℝ) (d : List ℝ) :
    ∀ (as : List Atom) (us : List (List ℝ)) (n : ℕ),
      n < as.length → n < us.length →
      (setBCloop upd as us).getD n d = upd (as.getD n ⟨0, 0, 0⟩) (us.getD n d)
  | [], _, n, h, _ => absurd h (by simp)
  | _ :: _, [], n, _, h => absurd h (by simp)
  | a :: as, u :: us, 0, _, _ => rfl
  | a :: as, u :: us, n + 1, h1, h2 => by
    simp only [setBCloop, List.getD_cons_succ]
    exact setBCloop_getD upd d as us n (by simpa using h1) (by simpa using h2)

lemma zipWith_sub_zero3 : ∀ v : List ℝ, v.length = 3 →
    List.zipWith (fun a b => a - b) [0, 0, 0] v = v.map (fun x => -x)
  | [], h => by simp at h
  | [a], h => by simp at h
  | [a, b], h => by simp at h
  | [a, b, c], _ => by simp
  | a :: b :: c :: d :: t, h => by simp at h

lemma pymod_eq_fract (x y : ℝ) (hy : y ≠ 0) :
    pymod x y = y * Int.fract (x / y) := by
  rw [pymod, Int.fract, mul_sub, mul_div_cancel₀ x hy]

lemma phiNorm_mem_Ico (p : ℝ) : 0 ≤ phiNorm p ∧ phiNorm p < 2 * Real.pi := by
  have h2 : (0 : ℝ) < 2 * Real.pi := by positivity
  rw [phiNorm]
  split_ifs with h
  · rw [pymod_eq_fract p (2 * Real.pi) (ne_of_gt h2)]
    constructor
    · exact mul_nonneg (le_of_lt h2) (Int.fract_nonneg _)
    · calc 2 * Real.pi * Int.fract (p / (2 * Real.pi))
          < 2 * Real.pi * 1 :=
            mul_lt_mul_of_pos_left (Int.fract_lt_one _) h2
        _ = 2 * Real.pi := mul_one _
  · exact ⟨le_refl 0, h2⟩

/-- C4: for a point force on atom i, `setBC` returns a (size_all, 3)
field whose rows with index below size_in are exactly zero, and whose
far-field rows equal -G(R, phi)·f_i, where R is the lattice constant
times the in-plane (m, n) separation distance to the source atom and phi
is the polar angle of the separation relative to the m-axis, normalized
into [0, 2·pi), with angles of absolute value at most 1e-8 snapped to 0. -/
theorem setBC_spec (i : ℕ) (grid : List Atom) (size_in size_all : ℕ)
    (Glr : ℝ → ℝ → List (List ℝ)) (a0 : ℝ) (f : List (List ℝ)) (k : ℕ)
    (hlen : grid.length = size_all) (hin : size_in ≤ size_all)
    (hG : ∀ R phi, (Glr R phi).length = 3) :
    (setBC i grid size_in size_all Glr a0 f).length = size_all ∧
    (k < size_in →
      (setBC i grid size_in size_all Glr a0 f).getD k [] = [0, 0, 0]) ∧
    (size_in ≤ k → k < size_all →
      (setBC i grid size_in size_all Glr a0 f).getD k [] =
        (bcDisp Glr a0 (grid.getD i ⟨0, 0, 0⟩) (grid.getD k ⟨0, 0, 0⟩)
          (f.getD i [0, 0, 0])).map (fun x => -x) ∧
      0 ≤ phiSep (grid.getD i ⟨0, 0, 0⟩) (grid.getD k ⟨0, 0, 0⟩) ∧
      phiSep (grid.getD i ⟨0, 0, 0⟩) (grid.getD k ⟨0, 0, 0⟩) < 2 * Real.pi ∧
      (|arctan2 ((grid.getD i ⟨0, 0, 0⟩).n - (grid.getD k ⟨0, 0, 0⟩).n)
          ((grid.getD i ⟨0, 0, 0⟩).m - (grid.getD k ⟨0, 0, 0⟩).m)| ≤ 1e-8 →
        phiSep (grid.getD i ⟨0, 0, 0⟩) (grid.getD k ⟨0, 0, 0⟩) = 0)) := by
  have htake : (List.replicate size_all [(0 : ℝ), 0, 0]).take size_in =
      List.replicate size_in [(0 : ℝ), 0, 0] := by
    rw [List.take_replicate, min_eq_left hin]
  have hdropu : (List.replicate size_all [(0 : ℝ), 0, 0]).drop size_in =
      List.replicate (size_all - size_in) [(0 : ℝ), 0, 0] := by
    rw [List.drop_replicate]
  refine ⟨?_, ?_, ?_⟩
  · rw [setBC]
    simp only [List.length_append, htake, hdropu, List.length_replicate,
      setBCloop_length, List.length_drop, hlen]
    omega
  · intro hk
    rw [setBC]
    simp only [htake, hdropu]
    rw [List.getD_append _ _ _ _ (by simp; omega)]
    rw [List.getD_eq_getElem _ _ (by simp; omega), List.getElem_replicate]
  · intro hk1 hk2
    rw [setBC]
    simp only [htake, hdropu]
    rw [List.getD_append_right _ _ _ _ (by simp; omega)]
    have hlr : (List.replicate size_in [(0 : ℝ), 0, 0]).length = size_in := by
      simp
    rw [hlr]
    rw [setBCloop_getD _ _ _ _ _ (by simp [hlen]; omega) (by simp; omega)]
    have hgd : (grid.drop size_in).getD (k - size_in) ⟨0, 0, 0⟩ =
        grid.getD k ⟨0, 0, 0⟩ := by
      rw [List.getD_eq_getElem _ _ (by simp [hlen]; omega),
        List.getD_eq_getElem _ _ (by omega : k < grid.length)]
      rw [List.getElem_drop]
      congr 1
      omega
    have hud : (List.replicate (size_all - size_in) [(0 : ℝ), 0, 0]).getD
        (k - size_in) [] = [0, 0, 0] := by
      rw [List.getD_eq_getElem _ _ (by simp; omega), List.getElem_replicate]
    rw [hgd, hud, zipWith_sub_zero3 _ (by rw [bcDisp, matVec, List.length_map, hG])]
    exact ⟨rfl, (phiNorm_mem_Ico _).1, (phiNorm_mem_Ico _).2,
      fun habs => by rw [phiSep, phiNorm, if_neg (by simpa using habs)]⟩

/-- Witness for C4: a two-atom grid with one far-field atom; the core row
of the returned field is zero and the far-field row is the negated
product of the (here constant zero) elastic tensor with the unit force,
with the normalized angle lying in [0, 2·pi). -/
theorem setBC_spec_witness :
    (setBC 0 [⟨0, 0, 0⟩, ⟨1, 0, 0⟩] 1 2
        (fun _ _ => [[0, 0, 0], [0, 0, 0], [0, 0, 0]]) 1 [[1, 0, 0]]).length = 2 ∧
    (setBC 0 [⟨0, 0, 0⟩, ⟨1, 0, 0⟩] 1 2
        (fun _ _ => [[0, 0, 0], [0, 0, 0], [0, 0, 0]]) 1 [[1, 0, 0]]).getD 0 []
      = [0, 0, 0] ∧
    (setBC 0 [⟨0, 0, 0⟩, ⟨1, 0, 0⟩] 1 2
        (fun _ _ => [[0, 0, 0], [0, 0, 0], [0, 0, 0]]) 1 [[1, 0, 0]]).getD 1 []
      = (bcDisp (fun _ _ => [[0, 0, 0], [0, 0, 0], [0, 0, 0]]) 1
          ([⟨0, 0, 0⟩, ⟨1, 0, 0⟩].getD 0 ⟨0, 0, 0⟩)
          ([(⟨0, 0, 0⟩ : Atom), ⟨1, 0, 0⟩].getD 1 ⟨0, 0, 0⟩)
          ([[(1 : ℝ), 0, 0]].getD 0 [0, 0, 0])).map (fun x => -x) ∧
    0 ≤ phiSep ([(⟨0, 0, 0⟩ : Atom), ⟨1, 0, 0⟩].getD 0 ⟨0, 0, 0⟩)
        ([(⟨0, 0, 0⟩ : Atom), ⟨1, 0, 0⟩].getD 1 ⟨0, 0, 0⟩) ∧
    phiSep ([(⟨0, 0, 0⟩ : Atom), ⟨1, 0, 0⟩].getD 0 ⟨0, 0, 0⟩)
        ([(⟨0, 0, 0⟩ : Atom), ⟨1, 0, 0⟩].getD 1 ⟨0, 0, 0⟩) < 2 * Real.pi := by
  have h := setBC_spec 0 [⟨0, 0, 0⟩, ⟨1, 0, 0⟩] 1 2
    (fun _ _ => [[0, 0, 0], [0, 0, 0], [0, 0, 0]]) 1 [[1, 0, 0]] 1
    (by simp) (by norm_num) (fun _ _ => by simp)
  have h0 := setBC_spec 0 [⟨0, 0, 0⟩, ⟨1, 0, 0⟩] 1 2
    (fun _ _ => [[0, 0, 0], [0, 0, 0], [0, 0, 0]]) 1 [[1, 0, 0]] 0
    (by simp) (by norm_num) (fun _ _ => by simp)
  have h2 := h.2.2 (by norm_num) (by norm_num)
  exact ⟨h.1, h0.2.1 (by norm_num), h2.1, h2.2.1, h2.2.2.1⟩

/-- The unit force vector of the assembly loop:
`f = np.zeros((3*size_in,)); f[j*3+d] = 1`.  The loop keeps
`j ≤ size_12 - 1 < size_in`, so the written index is always in range. -/
def unitForce (size_in j d : ℕ) : List ℝ :=
  (List.range (3 * size_in)).map (fun k => if k = j * 3 + d then 1 else 0)

/-- numpy in-place `f += g` on 1-d arrays: defined when the shape of g
broadcasts to the shape of f (equal lengths, or g of length 1), otherwise
a ValueError (`none`). -/
def broadcastAddInPlace (f g : List ℝ) : Option (List ℝ) :=
  if g.length = f.length then some (List.zipWith (fun a b => a + b) f g)
  else if g.length = 1 then some (f.map (fun a => a + g.headD 0))
  else none

/-- The corrected force of one assembly-loop column (src/calc_LGF.py,
lines 145-155): build the unit force, get the far-field boundary
displacement from `setBC`, then perform
`f += D.dot(np.reshape(u_bc, 3*size_all))` under numpy in-place
broadcasting rules. -/
def fEff (D : List (List ℝ)) (grid : List Atom) (size_in size_all : ℕ)
    (Glr : ℝ → ℝ → List (List ℝ)) (a0 : ℝ) (j d : ℕ) : Option (List ℝ) :=
  broadcastAddInPlace (unitForce size_in j d)
    (matVec D (setBC j grid size_in size_all Glr a0
      (chunk3 (unitForce size_in j d))).flatten)

/-- The value the corrected force takes whenever the in-place addition is
well-defined. -/
def fEffVal (D : List (List ℝ)) (grid : List Atom) (size_in size_all : ℕ)
    (Glr : ℝ → ℝ → List (List ℝ)) (a0 : ℝ) (j d : ℕ) : List ℝ :=
  List.zipWith (fun a b => a + b) (unitForce size_in j d)
    (matVec D (setBC j grid size_in size_all Glr a0
      (chunk3 (unitForce size_in j d))).flatten)

/-- `D[0:k, 0:k]` for a matrix stored as a list of rows. -/
def subMat (D : List (List ℝ)) (k : ℕ) : List (List ℝ) :=
  (D.take k).map (fun r => r.take k)

/-- One LGF column (src/calc_LGF.py, lines 157-167): solve
`D[0:3*size_in, 0:3*size_in] · u = f_eff` with the external sparse
conjugate-gradient collaborator `cg` (returning a solution vector and an
integer convergence status) and keep the first 3·size_123 entries of the
returned solution, whatever the status component is. -/
def lgfColumn (cg : List (List ℝ) → List ℝ → List ℝ × ℤ)
    (D : List (List ℝ)) (grid : List Atom) (size_in size_all size_123 : ℕ)
    (Glr : ℝ → ℝ → List (List ℝ)) (a0 : ℝ) (j d : ℕ) : Option (List ℝ) :=
  (fEff D grid size_in size_all Glr a0 j d).map
    (fun fe => ((cg (subMat D (3 * size_in)) fe).1).take (3 * size_123))

/-- The (atom, direction) pairs of the assembly loop in loop order: atom
index ascending from LGF_jmin through LGF_jmax, directions 0, 1, 2. -/
def colPairs (jmin jmax : ℕ) : List (ℕ × ℕ) :=
  (List.range' jmin (jmax + 1 - jmin)).flatMap (fun j => [(j, 0), (j, 1), (j, 2)])

/-- Run a fallible computation along a list, stopping at the first
failure (an uncaught Python exception aborts the loop). -/
def mapO {α β : Type} (h : α → Option β) : List α → Option (List β)
  | [] => some []
  | a :: l => (h a).bind (fun b => (mapO h l).map (fun r => b :: r))

/-- The assembly loop of src/calc_LGF.py (lines 143-171): the columns of
all (atom, direction) pairs of the requested range, in loop order.  The
matrix saved after the last atom of a completed run consists of exactly
these columns. -/
def assembleG (cg : List (List ℝ) → List ℝ → List ℝ × ℤ)
    (D : List (List ℝ)) (grid : List Atom) (size_in size_all size_123 : ℕ)
    (Glr : ℝ → ℝ → List (List ℝ)) (a0 : ℝ) (jmin jmax : ℕ) :
    Option (List (List ℝ)) :=
  mapO (fun p => lgfColumn cg D grid size_in size_all size_123 Glr a0 p.1 p.2)
    (colPairs jmin jmax)

/-- The per-column debug log of the assembly loop: after each solve the
source emits the returned convergence status
(`logging.debug` of `conv`, src/calc_LGF.py line 160); this is the
sequence of statuses logged by a completed run. -/
def assembleConvLog (cg : List (List ℝ) → List ℝ → List ℝ × ℤ)
    (D : List (List ℝ)) (grid : List Atom) (size_in size_all : ℕ)
    (Glr : ℝ → ℝ → List (List ℝ)) (a0 : ℝ) (jmin jmax : ℕ) :
    Option (List ℤ) :=
  mapO (fun p => (fEff D grid size_in size_all Glr a0 p.1 p.2).map
    (fun fe => (cg (subMat D (3 * size_in)) fe).2)) (colPairs jmin jmax)

lemma mapO_append {α β : Type} (h : α → Option β) :
    ∀ l1 l2 : List α, mapO h (l1 ++ l2) =
      (mapO h l1).bind (fun r1 => (mapO h l2).map (fun r2 => r1 ++ r2))
  | [], l2 => by
    cases hm : mapO h l2 <;> simp [mapO, hm]
  | a :: l1, l2 => by
    simp only [List.cons_append, mapO, List.append_eq]
    rw [mapO_append h l1 l2]
    cases h a <;> cases mapO h l1 <;> cases mapO h l2 <;> simp

lemma mapO_congr {α β : Type} {h1 h2 : α → Option β} :
    ∀ l : List α, (∀ a ∈ l, h1 a = h2 a) → mapO h1 l = mapO h2 l
  | [], _ => rfl
  | a :: l, hh => by
    simp only [mapO]
    rw [hh a (List.mem_cons_self a l), mapO_congr l (fun b hb => hh b (List.mem_cons_of_mem a hb))]

lemma mapO_eq_some_map {α β : Type} {h : α → Option β} {g : α → β} :
    ∀ l : List α, (∀ a ∈ l, h a = some (g a)) → mapO h l = some (l.map g)
  | [], _ => rfl
  | a :: l, hh => by
    simp only [mapO]
    rw [hh a (List.mem_cons_self a l),
      mapO_eq_some_map l (fun b hb => hh b (List.mem_cons_of_mem a hb))]
    simp

lemma fEff_eq_some (D : List (List ℝ)) (grid : List Atom)
    (size_in size_all : ℕ) (Glr : ℝ → ℝ → List (List ℝ)) (a0 : ℝ) (j d : ℕ)
    (hD : D.length = 3 * size_in) :
    fEff D grid size_in size_all Glr a0 j d =
      some (fEffVal D grid size_in size_all Glr a0 j d) := by
  rw [fEff, fEffVal, broadcastAddInPlace,
    if_pos (by simp [matVec, unitForce, hD])]

lemma assembleG_eq_some (cg : List (List ℝ) → List ℝ → List ℝ × ℤ)
    (D : List (List ℝ)) (grid : List Atom) (size_in size_all size_123 : ℕ)
    (Glr : ℝ → ℝ → List (List ℝ)) (a0 : ℝ) (jmin jmax : ℕ)
    (hD : D.length = 3 * size_in) :
    assembleG cg D grid size_in size_all size_123 Glr a0 jmin jmax =
      some ((colPairs jmin jmax).map (fun p =>
        ((cg (subMat D (3 * size_in))
          (fEffVal D grid size_in size_all Glr a0 p.1 p.2)).1).take
            (3 * size_123))) := by
  rw [assembleG]
  apply mapO_eq_some_map
  intro p _
  rw [lgfColumn, fEff_eq_some D grid size_in size_all Glr a0 p.1 p.2 hD,
    Option.map_some']

/-- C5 (amended): computing the LGF for an atom range in one batch yields
exactly the columns obtained by splitting the range at any atom k and
concatenating the two sub-batch results, columns ordered by atom index
ascending and direction 0, 1, 2; hence a run resumed from atom k+1
recomputes exactly the columns after atom k, and the uninterrupted matrix
is the checkpointed columns through atom k followed by the resumed run's
columns (the resumed run's saved file alone holds only the latter). -/
theorem assembleG_batch_split (cg : List (List ℝ) → List ℝ → List ℝ × ℤ)
    (D : List (List ℝ)) (grid : List Atom) (size_in size_all size_123 : ℕ)
    (Glr : ℝ → ℝ → List (List ℝ)) (a0 : ℝ) (jmin k jmax : ℕ)
    (h1 : jmin ≤ k) (h2 : k < jmax) :
    assembleG cg D grid size_in size_all size_123 Glr a0 jmin jmax =
      (assembleG cg D grid size_in size_all size_123 Glr a0 jmin k).bind
        (fun A => (assembleG cg D grid size_in size_all size_123 Glr a0
          (k + 1) jmax).map (fun B => A ++ B)) := by
  have hsplit : colPairs jmin jmax = colPairs jmin k ++ colPairs (k + 1) jmax := by
    rw [colPairs, colPairs, colPairs, ← List.flatMap_append]
    congr 1
    have e2 : k + 1 = jmin + (k + 1 - jmin) := by omega
    rw [show jmax + 1 - (k + 1) = jmax - k by omega]
    nth_rewrite 2 [e2]
    rw [List.range'_append_1]
    congr 1
    omega
  rw [assembleG, hsplit, mapO_append]
  rfl

/-- Witness for C5: a concrete two-atom range computed in one batch equals
the concatenation of the two single-atom batches. -/
theorem assembleG_batch_split_witness :
    assembleG (fun _ f => (f, 0)) (List.replicate 6 (List.replicate 6 0))
        [⟨0, 0, 0⟩, ⟨1, 0, 0⟩] 2 2 2
        (fun _ _ => [[0, 0, 0], [0, 0, 0], [0, 0, 0]]) 1 0 1 =
      (assembleG (fun _ f => (f, 0)) (List.replicate 6 (List.replicate 6 0))
          [⟨0, 0, 0⟩, ⟨1, 0, 0⟩] 2 2 2
          (fun _ _ => [[0, 0, 0], [0, 0, 0], [0, 0, 0]]) 1 0 0).bind
        (fun A => (assembleG (fun _ f => (f, 0))
            (List.replicate 6 (List.replicate 6 0)) [⟨0, 0, 0⟩, ⟨1, 0, 0⟩] 2 2 2
            (fun _ _ => [[0, 0, 0], [0, 0, 0], [0, 0, 0]]) 1 1 1).map
          (fun B => A ++ B)) :=
  assembleG_batch_split (fun _ f => (f, 0))
    (List.replicate 6 (List.replicate 6 0)) [⟨0, 0, 0⟩, ⟨1, 0, 0⟩] 2 2 2
    (fun _ _ => [[0, 0, 0], [0, 0, 0], [0, 0, 0]]) 1 0 0 1
    (le_refl 0) (by norm_num)

/-- C5 counterexample: interrupting the concrete two-atom assembly after
atom 0 and resuming from atom 1 yields a saved matrix (the three columns
of atom 1) different from the six-column matrix of the uninterrupted run,
so a resumed run alone does not reproduce the uninterrupted output. -/
theorem resumed_run_differs :
    assembleG (fun _ f => (f, 0)) (List.replicate 6 (List.replicate 6 0))
        [⟨0, 0, 0⟩, ⟨1, 0, 0⟩] 2 2 2
        (fun _ _ => [[0, 0, 0], [0, 0, 0], [0, 0, 0]]) 1 0 1 ≠
      assembleG (fun _ f => (f, 0)) (List.replicate 6 (List.replicate 6 0))
        [⟨0, 0, 0⟩, ⟨1, 0, 0⟩] 2 2 2
        (fun _ _ => [[0, 0, 0], [0, 0, 0], [0, 0, 0]]) 1 1 1 := by
  intro hcontra
  rw [assembleG_eq_some _ _ _ _ _ _ _ _ _ _ (by simp),
    assembleG_eq_some _ _ _ _ _ _ _ _ _ _ (by simp)] at hcontra
  simp only [Option.some.injEq] at hcontra
  have hlen := congrArg List.length hcontra
  rw [List.length_map, List.length_map,
    show (colPairs 0 1).length = 6 from rfl,
    show (colPairs 1 1).length = 3 from rfl] at hlen
  exact absurd hlen (by norm_num)

/-- C7: the assembly loop ignores the convergence status returned by the
sparse solver: replacing the status component of the solver by any other
status yields the same assembled matrix, and (whenever the force
correction is well-formed) the loop records for every (atom, direction)
pair, in order, the first 3·size_123 entries of whatever solution vector
the solver returned, while the status itself is only emitted to the
debug log, one entry per column. -/
theorem lgf_solver_status_ignored
    (sol : List (List ℝ) → List ℝ → List ℝ)
    (st1 st2 : List (List ℝ) → List ℝ → ℤ)
    (cg : List (List ℝ) → List ℝ → List ℝ × ℤ)
    (D : List (List ℝ)) (grid : List Atom) (size_in size_all size_123 : ℕ)
    (Glr : ℝ → ℝ → List (List ℝ)) (a0 : ℝ) (jmin jmax : ℕ)
    (hD : D.length = 3 * size_in) :
    assembleG (fun A b => (sol A b, st1 A b)) D grid size_in size_all size_123
        Glr a0 jmin jmax =
      assembleG (fun A b => (sol A b, st2 A b)) D grid size_in size_all size_123
        Glr a0 jmin jmax ∧
    assembleG cg D grid size_in size_all size_123 Glr a0 jmin jmax =
      some ((colPairs jmin jmax).map (fun p =>
        ((cg (subMat D (3 * size_in))
          (fEffVal D grid size_in size_all Glr a0 p.1 p.2)).1).take
            (3 * size_123))) ∧
    assembleConvLog cg D grid size_in size_all Glr a0 jmin jmax =
      some ((colPairs jmin jmax).map (fun p =>
        (cg (subMat D (3 * size_in))
          (fEffVal D grid size_in size_all Glr a0 p.1 p.2)).2)) := by
  refine ⟨?_, ?_, ?_⟩
  · rw [assembleG, assembleG]
    apply mapO_congr
    intro p _
    rw [lgfColumn, lgfColumn]
  · exact assembleG_eq_some cg D grid size_in size_all size_123 Glr a0
      jmin jmax hD
  · rw [assembleConvLog]
    apply mapO_eq_some_map
    intro p _
    rw [fEff_eq_some D grid size_in size_all Glr a0 p.1 p.2 hD,
      Option.map_some']

/-- Witness for C7: with a concrete solver returning the right-hand side
as the solution, changing the reported status from 7 to 0 leaves the
assembled matrix unchanged, and a solver reporting status 5 still has its
truncated solutions recorded as the columns. -/
theorem lgf_solver_status_ignored_witness :
    (assembleG (fun A b => ((fun _ f => f) A b, (fun _ _ => (7 : ℤ)) A b))
        (List.replicate 6 (List.replicate 6 0)) [⟨0, 0, 0⟩, ⟨1, 0, 0⟩] 2 2 2
        (fun _ _ => [[0, 0, 0], [0, 0, 0], [0, 0, 0]]) 1 0 0 =
      assembleG (fun A b => ((fun _ f => f) A b, (fun _ _ => (0 : ℤ)) A b))
        (List.replicate 6 (List.replicate 6 0)) [⟨0, 0, 0⟩, ⟨1, 0, 0⟩] 2 2 2
        (fun _ _ => [[0, 0, 0], [0, 0, 0], [0, 0, 0]]) 1 0 0) ∧
    assembleG (fun _ f => (f, 5)) (List.replicate 6 (List.replicate 6 0))
        [⟨0, 0, 0⟩, ⟨1, 0, 0⟩] 2 2 2
        (fun _ _ => [[0, 0, 0], [0, 0, 0], [0, 0, 0]]) 1 0 0 =
      some ((colPairs 0 0).map (fun p =>
        (((fun _ f => (f, (5 : ℤ)))
            (subMat (List.replicate 6 (List.replicate 6 0)) (3 * 2))
            (fEffVal (List.replicate 6 (List.replicate 6 0))
              [⟨0, 0, 0⟩, ⟨1, 0, 0⟩] 2 2
              (fun _ _ => [[0, 0, 0], [0, 0, 0], [0, 0, 0]]) 1 p.1 p.2)).1).take
          (3 * 2))) ∧
    assembleConvLog (fun _ f => (f, 5)) (List.replicate 6 (List.replicate 6 0))
        [⟨0, 0, 0⟩, ⟨1, 0, 0⟩] 2 2
        (fun _ _ => [[0, 0, 0], [0, 0, 0], [0, 0, 0]]) 1 0 0 =
      some ((colPairs 0 0).map (fun p =>
        ((fun _ f => (f, (5 : ℤ)))
            (subMat (List.replicate 6 (List.replicate 6 0)) (3 * 2))
            (fEffVal (List.replicate 6 (List.replicate 6 0))
              [⟨0, 0, 0⟩, ⟨1, 0, 0⟩] 2 2
              (fun _ _ => [[0, 0, 0], [0, 0, 0], [0, 0, 0]]) 1 p.1 p.2)).2)) :=
  lgf_solver_status_ignored (fun _ f => f) (fun _ _ => 7) (fun _ _ => 0)
    (fun _ f => (f, 5)) (List.replicate 6 (List.replicate 6 0))
    [⟨0, 0, 0⟩, ⟨1, 0, 0⟩] 2 2 2
    (fun _ _ => [[0, 0, 0], [0, 0, 0], [0, 0, 0]]) 1 0 0 (by simp)

/-- C2: the boundary-corrected force computation crashes whenever the
far-field region is nonempty: with size_in = 1, size_all = 2 and the
6x6 zero force-constant matrix, `f += D.dot(u_bc)` adds a vector of
length 3·size_all = 6 into the length 3·size_in = 3 unit-force buffer,
which numpy broadcasting rejects, so no corrected force is produced. -/
theorem assembly_force_correction_crashes :
    fEff (List.replicate 6 (List.replicate 6 0)) [⟨0, 0, 0⟩, ⟨1, 0, 0⟩] 1 2
      (fun _ _ => [[0, 0, 0], [0, 0, 0], [0, 0, 0]]) 1 0 0 = none := by
  have hg : (matVec (List.replicate 6 (List.replicate 6 (0 : ℝ)))
      ((setBC 0 [⟨0, 0, 0⟩, ⟨1, 0, 0⟩] 1 2
        (fun _ _ => [[0, 0, 0], [0, 0, 0], [0, 0, 0]]) 1
        (chunk3 (unitForce 1 0 0))).flatten)).length = 6 := by
    simp [matVec]
  have hf : (unitForce 1 0 0).length = 3 := by
    simp [unitForce]
  rw [fEff, broadcastAddInPlace, if_neg (by rw [hg, hf]; norm_num),
    if_neg (by rw [hg]; norm_num)]

/-- C6: loading a persisted LGF succeeds exactly when all three stored
region-size attributes equal the current run region sizes; any mismatch,
even by 1 in a single attribute, raises a configuration error. -/
theorem gLoadCheck_ok_iff (a1 a12 a123 s1 s12 s123 : ℕ) :
    gLoadCheck a1 a12 a123 s1 s12 s123 = Except.ok () ↔
      (a1 = s1 ∧ a12 = s12 ∧ a123 = s123) := by
  unfold gLoadCheck
  split_ifs with h1 h2 h3
  · simp [h1]
  · simp [h2]
  · simp [h3]
  · simp at h1 h2 h3
    simp [h1, h2, h3]

end
